import Mathlib

/-!
# lua-vm `net/http`: response pipeline and request helpers

A shallow embedding of `src/net/http/http.go`.

* Every `io.Closer` is a `Closer` value carrying an identity and the error (if any) its
  `Close` reports.  The observable effect of `Close` is an entry appended to a `Trace`.
* A Go run-time panic (index out of range, nil dereference) is the outcome `none` of the
  `Option` that wraps every operation able to panic.
-/

namespace LuaVM

/-- A Go `error` value, reduced to its message. -/
abbrev Error := String

/-! ## Standard-library helpers used by the module -/

/-- Whether `p` starts the character list `s` (Go `strings.HasPrefix`). -/
def startsWith : List Char → List Char → Bool
  | _, [] => true
  | [], _ :: _ => false
  | a :: s, b :: p => a == b && startsWith s p

/-- Go `strings.Contains` on character lists. -/
def containsChars : List Char → List Char → Bool
  | [], sub => startsWith [] sub
  | a :: s, sub => startsWith (a :: s) sub || containsChars s sub

/-- Go `strings.Contains(s, substr)`. -/
def Contains (s substr : String) : Bool :=
  containsChars s.toList substr.toList

/-- The UTF-8 encoding of one character, a Go string being its bytes. -/
def utf8Bytes (c : Char) : List Nat :=
  let n := c.toNat
  if n < 128 then [n]
  else if n < 2048 then [192 + n / 64, 128 + n % 64]
  else if n < 65536 then [224 + n / 4096, 128 + n / 64 % 64, 128 + n % 64]
  else [240 + n / 262144, 128 + n / 4096 % 64, 128 + n / 64 % 64, 128 + n % 64]

/-- The bytes of a Go string. -/
def strBytes : List Char → List Nat
  | [] => []
  | c :: cs => utf8Bytes c ++ strBytes cs

/-- Bytewise `a <= b` on byte strings, the order of `sort.Strings`. -/
def leBytes : List Nat → List Nat → Bool
  | [], _ => true
  | _ :: _, [] => false
  | a :: as, b :: bs => a < b || (a == b && leBytes as bs)

/-- Go string comparison `a <= b`. -/
def leStr (a b : String) : Bool :=
  leBytes (strBytes a.toList) (strBytes b.toList)

/-- Token bytes of RFC 7230, the table behind `validHeaderFieldByte` and `validMethod`:
letters, digits and the punctuation with the codes listed. -/
def isTokenByte (c : Char) : Bool :=
  c.isAlphanum || [33, 35, 36, 37, 38, 39, 42, 43, 45, 46, 94, 95, 96, 124, 126].contains c.toNat

/-- The second loop of `canonicalMIMEHeaderKey`: upper case at the start and after each
dash, lower case elsewhere. -/
def canonChars : Bool → List Char → List Char
  | _, [] => []
  | upper, c :: cs =>
    let c' := if upper && c.isLower then c.toUpper
              else if !upper && c.isUpper then c.toLower else c
    c' :: canonChars (c' == '-') cs

/-- Go `textproto.CanonicalMIMEHeaderKey`: a key holding a byte that is not a token byte
is returned unchanged, any other key is put in canonical case. -/
def CanonicalHeaderKey (s : String) : String :=
  if s.toList.all isTokenByte then String.mk (canonChars true s.toList) else s

/-- A Go map with string keys as the list of its entries; `mapSet` is `m[k] = v`. -/
def mapSet {β : Type} : List (String × β) → String → β → List (String × β)
  | [], k, v => [(k, v)]
  | (k', v') :: rest, k, v =>
    if k' = k then (k, v) :: rest else (k', v') :: mapSet rest k v

/-- Go `m[k]` with presence flag. -/
def mapGet {β : Type} : List (String × β) → String → Option β
  | [], _ => none
  | (k', v') :: rest, k => if k' = k then some v' else mapGet rest k

/-- Go `http.Header`, a `map[string][]string`. -/
abbrev GoHeader := List (String × List String)

/-- Go `Header.Get`: the first value under the canonical key, or the empty string. -/
def GoHeader.Get (h : GoHeader) (key : String) : String :=
  match mapGet h (CanonicalHeaderKey key) with
  | some (v :: _) => v
  | _ => ""

/-- Go `Header.Set`: the canonical key is bound to the single value. -/
def GoHeader.Set (h : GoHeader) (key value : String) : GoHeader :=
  mapSet h (CanonicalHeaderKey key) [value]

/-! ### `net/url` -/

/-- The parts of a parsed `url.URL` this module touches: `Base` is everything before the
query (scheme, host and path), `RawQuery` the query without `?`, `Fragment` what follows `#`. -/
structure URL where
  Base : String
  RawQuery : String
  Fragment : String
deriving DecidableEq, Repr

/-- Go `strings.Cut` at the first occurrence of the character `sep`. -/
def cutAt (sep : Char) : List Char → List Char × List Char
  | [] => ([], [])
  | c :: cs => if c = sep then ([], cs) else ((cutAt sep cs).1.cons c, (cutAt sep cs).2)

/-- How `url.Parse` divides a URL it accepts: the fragment is cut off at the first `#`,
then the query at the first `?`.  The parts are kept as written: a fragment with escapes
is not decoded and an empty port is not dropped, so this stands for `url.Parse` on URLs
without either, as those of the samples. -/
def splitURL (rawurl : String) : URL :=
  let p := cutAt '#' rawurl.toList
  let q := cutAt '?' p.1
  { Base := String.mk q.1, RawQuery := String.mk q.2, Fragment := String.mk p.2 }

/-- Upper-case hexadecimal digit, `"0123456789ABCDEF"[n]`. -/
def hexDigit (n : Nat) : Char :=
  if n < 10 then Char.ofNat (48 + n) else Char.ofNat (55 + n)

/-- Go `shouldEscape(c, encodeQueryComponent)` negated: letters, digits, `-`, `_`, `.`
and `~` are the only bytes left as they are. -/
def unreservedByte (b : Nat) : Bool :=
  (48 ≤ b && b ≤ 57) || (65 ≤ b && b ≤ 90) || (97 ≤ b && b ≤ 122) ||
    b == 45 || b == 95 || b == 46 || b == 126

/-- One byte under `url.QueryEscape`: kept, turned to `+` (space) or to `%XX`. -/
def escapeByte (b : Nat) : List Char :=
  if unreservedByte b then [Char.ofNat b]
  else if b = 32 then ['+']
  else ['%', hexDigit (b / 16), hexDigit (b % 16)]

/-- The escape loop over a byte string. -/
def escapeBytes : List Nat → List Char
  | [] => []
  | b :: bs => escapeByte b ++ escapeBytes bs

/-- Go `url.QueryEscape`. -/
def QueryEscape (s : String) : String :=
  String.mk (escapeBytes (strBytes s.toList))

/-- Go `url.Values`, a `map[string][]string`. -/
abbrev Values := List (String × List String)

/-- The inner loop of `Values.Encode` over the values `vs` of one key. -/
def Values.encodeKey (keyEscaped : String) : List String → String → String
  | [], buf => buf
  | v :: vs, buf =>
    let buf := if buf.length > 0 then buf ++ "&" else buf
    Values.encodeKey keyEscaped vs (buf ++ keyEscaped ++ "=" ++ QueryEscape v)

/-- The outer loop of `Values.Encode` over the sorted keys. -/
def Values.encodeKeys (v : Values) : List String → String → String
  | [], buf => buf
  | k :: keys, buf =>
    let vs := (mapGet v k).getD []
    Values.encodeKeys v keys (Values.encodeKey (QueryEscape k) vs buf)

/-- Go `Values.Encode`: the keys are sorted, then `key=value` pairs are written to the
buffer, each key and value escaped, with `&` before every pair but the first. -/
def Values.Encode (v : Values) : String :=
  let keys := (v.map Prod.fst).insertionSort (fun a b => leStr a b = true)
  Values.encodeKeys v keys ""

/-! ## Request bodies -/

/-- How a byte stream ends for the one reading it: `io.EOF`, an error, or never (the
reader blocks). -/
inductive StreamEnd where
  | eof
  | failed (e : Error)
  | blocked
deriving DecidableEq, Repr

/-- What the consumer of an `io.Reader` observes reading it to its end. -/
structure Stream where
  data : List Nat
  ending : StreamEnd
deriving DecidableEq, Repr

/-- Go `strings.NewReader(s)` and `bytes.NewReader(b)`: the bytes, then `io.EOF`. -/
def bytesReader (b : List Nat) : Stream :=
  { data := b, ending := .eof }

/-- The calls a producer makes on the write end of an `io.Pipe`. -/
inductive PipeOp where
  | write (p : List Nat)
  | close
  | closeWithError (e : Error)
deriving DecidableEq, Repr

/-- The read end of an `io.Pipe` whose write end receives the calls `ops`: the bytes
written before the first close, then `io.EOF` after `Close`, the error after
`CloseWithError`; without a close the reader waits for ever. -/
def pipeReader : List PipeOp → Stream
  | [] => { data := [], ending := .blocked }
  | .write p :: ops => { data := p ++ (pipeReader ops).data, ending := (pipeReader ops).ending }
  | .close :: _ => { data := [], ending := .eof }
  | .closeWithError e :: _ => { data := [], ending := .failed e }

/-- Go `json.NewEncoder(w).Encode(values)`, given the outcome `encoded` of marshalling
`values`: a failure returns before anything is written, a success writes the encoding
followed by a newline.  Returns the calls made on `w` and the error of `Encode`. -/
def jsonEncode (encoded : Except Error (List Nat)) : List PipeOp × Option Error :=
  match encoded with
  | .error e => ([], some e)
  | .ok b => ([.write (b ++ [10])], none)

/-! ## Requests -/

/-- Go `*http.Request` as built by `http.NewRequest`. -/
structure HttpRequest where
  Method : String
  URL : URL
  Header : GoHeader
  Body : Option Stream
deriving DecidableEq, Repr

/-- Go `http.NewRequest`: an empty method means `GET`, a method that is not a token is
refused (the error is given without the quoted method Go appends to it), the URL goes
through `url.Parse` (here `parse`, which is also to drop an empty port as `NewRequest`
does), the header map starts empty. -/
def NewRequest (parse : String → Except Error URL) (method rawurl : String)
    (body : Option Stream) : Except Error HttpRequest :=
  let method := if method = "" then "GET" else method
  if !(method.toList.all isTokenByte) then .error "net/http: invalid method"
  else
    match parse rawurl with
    | .error e => .error e
    | .ok u => .ok { Method := method, URL := u, Header := [], Body := body }

/-- Go `Request.AddCookie`, `s` being the sanitized `name=value`: the pair is joined to
the `Cookie` header with `; `. -/
def HttpRequest.AddCookie (req : HttpRequest) (s : String) : HttpRequest :=
  let c := req.Header.Get "Cookie"
  if c ≠ "" then { req with Header := req.Header.Set "Cookie" (c ++ "; " ++ s) }
  else { req with Header := req.Header.Set "Cookie" s }

/-! ## Closers and the response body -/

/-- What the module does to the outside, in the order it happens. -/
inductive Event where
  /-- `Close` was called on the closer with this identity -/
  | closed (id : Nat)
  /-- the request was handed to `client.Do` -/
  | sent (req : HttpRequest)
deriving DecidableEq, Repr

/-- The events so far, oldest first. -/
abbrev Trace := List Event

/-- An `io.Closer`: `id` tells handles apart, `err` is what its `Close` returns. -/
structure Closer where
  id : Nat
  err : Option Error
deriving DecidableEq, Repr

/-- The call `c.Close()`: the call is recorded, the handle's own error is returned. -/
def Closer.Close (c : Closer) (tr : Trace) : Option Error × Trace :=
  (c.err, tr ++ [Event.closed c.id])

/-- The events of closing the handles `cs` one after the other. -/
def closedEvents (cs : List Closer) : Trace :=
  cs.map (fun c => Event.closed c.id)

/-- The reader stack behind a response body. -/
inductive Reader where
  /-- the transport body `resp.Body`, which is its own closer -/
  | raw (c : Closer)
  /-- `gzip.NewReader(src)`; `z` is the closer of the decompressor -/
  | gunzip (z : Closer) (src : Reader)
  /-- `transform.NewReader(src, simplifiedchinese.GBK.NewDecoder())` -/
  | gbk (src : Reader)
deriving DecidableEq, Repr

/-- Go `type Body struct { io.Reader; closer []io.Closer }`. -/
structure Body where
  Reader : Reader
  closer : List Closer
deriving DecidableEq, Repr

/-- The loop of `Body.Close`, `for i := len(b.closer) - 1; i >= 0; i--`, entered with
`i = k - 1`: `k = 0` is the exit `i < 0`; the body is `b.closer[i].Close()` with the
returned error dropped.  `none` is the index-out-of-range panic. -/
def Body.closeLoop (closer : List Closer) : Nat → Trace → Option Trace
  | 0, tr => some tr
  | i + 1, tr =>
    match closer.get? i with
    | none => none
    | some c => Body.closeLoop closer i (c.Close tr).2

/-- Go `func (b *Body) Close() error`. -/
def Body.Close (b : Body) (tr : Trace) : Option (Option Error × Trace) :=
  match Body.closeLoop b.closer b.closer.length tr with
  | none => none
  | some tr' => some (none, tr')

/-- Go `func (b *Body) Append(c io.Closer)`. -/
def Body.Append (b : Body) (c : Closer) : Body :=
  { b with closer := b.closer ++ [c] }

/-! ## Responses -/

/-- The `*http.Response` that `client.Do` hands over: its body is the transport body,
reader and closer in one. -/
structure TransportResponse where
  Header : GoHeader
  Body : Closer
deriving DecidableEq, Repr

/-- What `resp.Body` can hold once `__response` is done: the transport body as it came,
or a `*Body`. -/
inductive ReadCloser where
  | raw (c : Closer)
  | layered (b : Body)
deriving DecidableEq, Repr

/-- The `io.Reader` side of `resp.Body`. -/
def ReadCloser.reader : ReadCloser → Reader
  | .raw c => Reader.raw c
  | .layered b => b.Reader

/-- The call `resp.Body.Close()`. -/
def ReadCloser.Close : ReadCloser → Trace → Option (Option Error × Trace)
  | .raw c, tr => some (c.Close tr)
  | .layered b, tr => b.Close tr

/-- The `*http.Response` returned to the callers of this module. -/
structure Response where
  Header : GoHeader
  Body : ReadCloser
deriving DecidableEq, Repr

/-- The charset step of `__response`: with `charset=GBK` in the content type the current
reader is wrapped in the transcoder; no closer is added. -/
def gbkLayer (h : GoHeader) (reader : Body) : Body :=
  if Contains (h.Get "Content-Type") "charset=GBK" then
    { reader with Reader := Reader.gbk reader.Reader }
  else reader

/-- Go `func __response(resp *http.Response, err error) (*http.Response, error)`.
`gzipNewReader` is `gzip.NewReader`: it fails or yields the decompressor's closer.  The
deferred `ungzip.Close()` runs as the function returns.  `none` is the nil dereference of
`resp`. -/
def __response (gzipNewReader : Reader → Except Error Closer)
    (resp : Option TransportResponse) (err : Option Error) (tr : Trace) :
    Option ((Option Response × Option Error) × Trace) :=
  match err with
  | some e => some ((none, some e), tr)
  | none =>
    match resp with
    | none => none
    | some resp =>
      let reader : Body := { Reader := Reader.raw resp.Body, closer := [resp.Body] }
      if resp.Header.Get "Content-Encoding" = "gzip" then
        match gzipNewReader reader.Reader with
        | .error e =>
          some ((some { Header := resp.Header, Body := ReadCloser.raw resp.Body }, some e), tr)
        | .ok ungzip =>
          let reader := ({ reader with Reader := Reader.gunzip ungzip reader.Reader }).Append ungzip
          let reader := gbkLayer resp.Header reader
          some ((some { Header := resp.Header, Body := ReadCloser.layered reader }, none),
            (ungzip.Close tr).2)
      else
        let reader := gbkLayer resp.Header reader
        some ((some { Header := resp.Header, Body := ReadCloser.layered reader }, none), tr)

/-! ## The factory -/

/-- Go `type HTTPFactory struct { client *http.Client }`: the client is what its `Do`
answers to a request, the pair `(resp, err)`. -/
structure HTTPFactory where
  client : HttpRequest → Option TransportResponse × Option Error

/-- The library calls whose outcome depends on data outside this module. -/
structure Runtime where
  /-- `url.Parse` inside `http.NewRequest` -/
  urlParse : String → Except Error URL
  /-- `gzip.NewReader` -/
  gzipNewReader : Reader → Except Error Closer
  /-- `ioutil.ReadAll` -/
  readAll : Reader → Except Error (List Nat)
  /-- `sanitizeCookieName` of `net/http` -/
  sanitizeCookieName : String → String
  /-- `sanitizeCookieValue` of `net/http` -/
  sanitizeCookieValue : String → String
  /-- `base.Buffer.ToString` -/
  bufferToString : List Nat → String → String

/-- Go `type Request struct`; each map is the list of its entries in iteration order, and
`Type_` is the field `Type`. -/
structure Request where
  Method : String
  Url : String
  Type_ : String
  Header : List (String × String)
  Query : List (String × String)
  Cookie : List (String × String)
  Body : Option Stream
deriving DecidableEq, Repr

/-- The values of `i` in `for i, l := 0, len(header); i < l; i += 2`: the even numbers
below `l`, in increasing order. -/
def loopIndices (l : Nat) : List Nat :=
  (List.range l).filter (fun i => i % 2 = 0)

/-- The loop body `req.Header.Set(header[i*2+0], header[i*2+1])`; `none` is the
index-out-of-range panic. -/
def setHeaderPair (header : List String) (h : GoHeader) (i : Nat) : Option GoHeader :=
  match header.get? (i * 2 + 0), header.get? (i * 2 + 1) with
  | some k, some v => some (h.Set k v)
  | _, _ => none

/-- The header loop of `__do`, started on the header map `h`. -/
def setHeaders (header : List String) (h : GoHeader) : Option GoHeader :=
  (loopIndices header.length).foldlM (setHeaderPair header) h

/-- The result type of the request operations: `(resp, err)` and the trace, or a panic. -/
abbrev Outcome := Option ((Option Response × Option Error) × Trace)

/-- The closing line of `__do` and `Do`, `return __response(f.client.Do(req))`; handing
the request to the client is recorded in the trace. -/
def HTTPFactory.send (f : HTTPFactory) (rt : Runtime) (req : HttpRequest) (tr : Trace) :
    Outcome :=
  let r := f.client req
  __response rt.gzipNewReader r.1 r.2 (tr ++ [Event.sent req])

/-- Go `func (f *HTTPFactory) __do(method, rawurl string, body io.Reader, header ...string)`. -/
def HTTPFactory.__do (f : HTTPFactory) (rt : Runtime) (method rawurl : String)
    (body : Option Stream) (header : List String) (tr : Trace) : Outcome :=
  match NewRequest rt.urlParse method rawurl body with
  | .error e => some ((none, some e), tr)
  | .ok req =>
    match setHeaders header req.Header with
    | none => none
    | some h => f.send rt { req with Header := h } tr

/-- The query step of `Do`: a fresh `url.Values` receives `query[k] = []string{v}` for
every entry of the map. -/
def queryValues (query : List (String × String)) : Values :=
  query.foldl (fun q kv => mapSet q kv.1 [kv.2]) []

/-- The request `Do` builds from `r` once `http.NewRequest` gave `req`. -/
def HTTPFactory.buildRequest (rt : Runtime) (r : Request) (req : HttpRequest) : HttpRequest :=
  let req :=
    if r.Query.length > 0 then
      { req with URL := { req.URL with RawQuery := (queryValues r.Query).Encode } }
    else req
  let req :=
    if r.Header.length > 0 then
      { req with Header := r.Header.foldl (fun h kv => h.Set kv.1 kv.2) req.Header }
    else req
  if r.Cookie.length > 0 then
    r.Cookie.foldl
      (fun q kv => q.AddCookie (rt.sanitizeCookieName kv.1 ++ "=" ++ rt.sanitizeCookieValue kv.2))
      req
  else req

/-- Go `func (f *HTTPFactory) Do(r *Request) (*http.Response, error)`. -/
def HTTPFactory.Do (f : HTTPFactory) (rt : Runtime) (r : Request) (tr : Trace) : Outcome :=
  match NewRequest rt.urlParse r.Method r.Url r.Body with
  | .error e => some ((none, some e), tr)
  | .ok req => f.send rt (HTTPFactory.buildRequest rt r req) tr

/-- Go `HTTPFactory.Delete`. -/
def HTTPFactory.Delete (f : HTTPFactory) (rt : Runtime) (rawurl : String) (tr : Trace) : Outcome :=
  f.__do rt "DELETE" rawurl none [] tr

/-- Go `HTTPFactory.Put`. -/
def HTTPFactory.Put (f : HTTPFactory) (rt : Runtime) (rawurl : String) (tr : Trace) : Outcome :=
  f.__do rt "PUT" rawurl none [] tr

/-- Go `HTTPFactory.Get`. -/
def HTTPFactory.Get (f : HTTPFactory) (rt : Runtime) (rawurl : String) (tr : Trace) : Outcome :=
  f.__do rt "GET" rawurl none [] tr

/-- Go `HTTPFactory.Post`. -/
def HTTPFactory.Post (f : HTTPFactory) (rt : Runtime) (rawurl contentType : String)
    (body : Option Stream) (tr : Trace) : Outcome :=
  f.__do rt "POST" rawurl body ["Content-Type", contentType] tr

/-- Go `HTTPFactory.Head`. -/
def HTTPFactory.Head (f : HTTPFactory) (rt : Runtime) (rawurl : String) (tr : Trace) : Outcome :=
  f.__do rt "HEAD" rawurl none [] tr

/-- The opening of the four `Post*` helpers: `contentType := dflt`, replaced by `args[0]`
when `len(args) > 0`. -/
def contentTypeOf (dflt : String) (args : List String) : String :=
  match args with
  | [] => dflt
  | a :: _ => a

/-- The calls the goroutine of `PostJson` makes on the write end of the pipe:
`json.NewEncoder(w).Encode(values)`, its error dropped, then `w.Close()`. -/
def jsonProducer (encoded : Except Error (List Nat)) : List PipeOp :=
  (jsonEncode encoded).1 ++ [PipeOp.close]

/-- Go `HTTPFactory.PostJson`; `marshal` is the JSON encoding of a value. -/
def HTTPFactory.PostJson {α : Type} (f : HTTPFactory) (rt : Runtime)
    (marshal : α → Except Error (List Nat)) (rawurl : String) (values : α)
    (args : List String) (tr : Trace) : Outcome :=
  let contentType := contentTypeOf "application/json" args
  let r := pipeReader (jsonProducer (marshal values))
  f.Post rt rawurl contentType (some r) tr

/-- Go `HTTPFactory.PostForm`. -/
def HTTPFactory.PostForm (f : HTTPFactory) (rt : Runtime) (rawurl : String) (values : Values)
    (args : List String) (tr : Trace) : Outcome :=
  let contentType := contentTypeOf "application/x-www-form-urlencoded" args
  f.Post rt rawurl contentType (some (bytesReader (strBytes values.Encode.toList))) tr

/-- Go `HTTPFactory.PostString`. -/
def HTTPFactory.PostString (f : HTTPFactory) (rt : Runtime) (rawurl values : String)
    (args : List String) (tr : Trace) : Outcome :=
  let contentType := contentTypeOf "text/plain" args
  f.Post rt rawurl contentType (some (bytesReader (strBytes values.toList))) tr

/-- Go `HTTPFactory.PostBuffer`. -/
def HTTPFactory.PostBuffer (f : HTTPFactory) (rt : Runtime) (rawurl : String)
    (values : List Nat) (args : List String) (tr : Trace) : Outcome :=
  let contentType := contentTypeOf "application/octet-stream" args
  f.Post rt rawurl contentType (some (bytesReader values)) tr

/-- Go `HTTPFactory.GetBuffer`: the deferred `resp.Body.Close()` is registered only
after the error check and runs on both later returns. -/
def HTTPFactory.GetBuffer (f : HTTPFactory) (rt : Runtime) (rawurl : String) (tr : Trace) :
    Option ((Option (List Nat) × Option Error) × Trace) :=
  match f.Get rt rawurl tr with
  | none => none
  | some ((resp, err), tr) =>
    match err with
    | some e => some ((none, some e), tr)
    | none =>
      match resp with
      | none => none
      | some resp =>
        match rt.readAll resp.Body.reader with
        | .error e => (resp.Body.Close tr).map (fun r => ((none, some e), r.2))
        | .ok buf => (resp.Body.Close tr).map (fun r => ((some buf, none), r.2))

/-- Go `HTTPFactory.GetString`. -/
def HTTPFactory.GetString (f : HTTPFactory) (rt : Runtime) (rawurl : String) (tr : Trace) :
    Option ((String × Option Error) × Trace) :=
  match f.GetBuffer rt rawurl tr with
  | none => none
  | some ((buf, err), tr) =>
    match err with
    | some e => some (("", some e), tr)
    | none =>
      match buf with
      | none => some ((rt.bufferToString [] "raw", none), tr)
      | some b => some ((rt.bufferToString b "raw", none), tr)

/-! ## Concrete surroundings for evaluation -/

/-- A runtime whose `url.Parse` accepts its argument and splits it with `splitURL`, whose
`gzip.NewReader` answers `gz` and whose `ioutil.ReadAll` answers `read`. -/
def sampleRuntime (gz : Except Error Closer) (read : Except Error (List Nat)) : Runtime :=
  { urlParse := fun u => .ok (splitURL u)
    gzipNewReader := fun _ => gz
    readAll := fun _ => read
    sanitizeCookieName := fun s => s
    sanitizeCookieValue := fun s => s
    bufferToString := fun _ _ => "" }

/-- A factory whose client answers every request with the response `resp`. -/
def sampleFactory (resp : TransportResponse) : HTTPFactory :=
  { client := fun _ => (some resp, none) }

/-- The transport body of the sample responses. -/
def rawBody : Closer := { id := 0, err := none }

/-- The closer of the decompressor in the samples. -/
def gzipCloser : Closer := { id := 1, err := none }

/-- A response with `Content-Encoding: gzip`. -/
def gzipResponse : TransportResponse :=
  { Header := [("Content-Encoding", ["gzip"])], Body := rawBody }

/-- A response with `Content-Encoding: gzip` and a GBK content type. -/
def gzipGbkResponse : TransportResponse :=
  { Header := [("Content-Encoding", ["gzip"]), ("Content-Type", ["text/html; charset=GBK"])],
    Body := rawBody }

/-- A response without any header. -/
def plainResponse : TransportResponse :=
  { Header := [], Body := rawBody }

/-- A JSON encoder refusing its value, as `json.Marshal` refuses a channel. -/
def failingMarshal (_ : Unit) : Except Error (List Nat) :=
  .error "json: unsupported type: chan int"

/-- A request for a URL that carries a query of its own, with one entry in `Query`. -/
def searchRequest : Request :=
  { Method := "GET", Url := "http://example.com/search?lang=en", Type_ := "",
    Header := [], Query := [("q", "lua vm")], Cookie := [], Body := none }

/-- What `http.NewRequest` builds for `searchRequest`. -/
def searchHttpRequest : HttpRequest :=
  { Method := "GET",
    URL := { Base := "http://example.com/search", RawQuery := "lang=en", Fragment := "" },
    Header := [], Body := none }

/-- A runtime like `sampleRuntime` whose `url.Parse` refuses a URL that starts with a
colon, the case `missing protocol scheme` of `getScheme` in `net/url`; the error is the
inner message, without the `parse` wrapping of `url.Error`. -/
def refusingRuntime : Runtime :=
  { urlParse := fun u =>
      if startsWith u.toList [':'] then .error "missing protocol scheme" else .ok (splitURL u)
    gzipNewReader := fun _ => .ok gzipCloser
    readAll := fun _ => .ok []
    sanitizeCookieName := fun s => s
    sanitizeCookieValue := fun s => s
    bufferToString := fun _ _ => "" }

/-- A JSON encoder answering the two bytes of an empty object. -/
def emptyObjectMarshal (_ : Unit) : Except Error (List Nat) :=
  .ok [123, 125]

/-- What an outcome shows of a call: whether a response came back, whether an error came
back, and the trace. -/
def Outcome.observed (o : Outcome) : Option (Bool × Bool × Trace) :=
  o.map (fun x => (x.1.1.isSome, x.1.2.isSome, x.2))

/-! ## Lemmas on `Body.Close` -/

theorem Body.closeLoop_take (closer : List Closer) :
    ∀ (k : Nat) (tr : Trace), k ≤ closer.length →
      Body.closeLoop closer k tr = some (tr ++ closedEvents (closer.take k).reverse) := by
  intro k
  induction k with
  | zero => intro tr _; simp [Body.closeLoop, closedEvents]
  | succ i ih =>
    intro tr hk
    have hi : i < closer.length := hk
    have hget : closer.get? i = some closer[i] := by
      simp [List.get?_eq_getElem?, List.getElem?_eq_getElem hi]
    have htake : closer.take (i + 1) = closer.take i ++ [closer[i]] := by
      rw [List.take_succ, List.getElem?_eq_getElem hi]; rfl
    rw [Body.closeLoop, hget]
    simp only [Closer.Close]
    rw [ih _ (Nat.le_of_lt hi), htake, List.reverse_append]
    simp [closedEvents, List.append_assoc]

theorem Body.Close_eq (b : Body) (tr : Trace) :
    b.Close tr = some (none, tr ++ closedEvents b.closer.reverse) := by
  unfold Body.Close
  rw [Body.closeLoop_take b.closer b.closer.length tr (Nat.le_refl _)]
  simp

theorem Body.closer_foldl_Append (b : Body) (cs : List Closer) :
    (cs.foldl Body.Append b).closer = b.closer ++ cs := by
  induction cs generalizing b with
  | nil => simp
  | cons c cs ih => simp [List.foldl, ih, Body.Append]

/-! ## Lemmas on `__response` -/

theorem gbkLayer_closer (h : GoHeader) (b : Body) : (gbkLayer h b).closer = b.closer := by
  unfold gbkLayer
  split <;> rfl

theorem response_gzip_ok (gz : Reader → Except Error Closer) (resp : TransportResponse)
    (z : Closer) (tr : Trace) (hce : resp.Header.Get "Content-Encoding" = "gzip")
    (hz : gz (Reader.raw resp.Body) = .ok z) :
    __response gz (some resp) none tr =
      some ((some { Header := resp.Header,
                    Body := ReadCloser.layered (gbkLayer resp.Header
                      { Reader := Reader.gunzip z (Reader.raw resp.Body),
                        closer := [resp.Body, z] }) }, none),
        tr ++ [Event.closed z.id]) := by
  simp [__response, hce, hz, Body.Append, Closer.Close]

theorem response_gzip_error (gz : Reader → Except Error Closer) (resp : TransportResponse)
    (e : Error) (tr : Trace) (hce : resp.Header.Get "Content-Encoding" = "gzip")
    (hz : gz (Reader.raw resp.Body) = .error e) :
    __response gz (some resp) none tr =
      some ((some { Header := resp.Header, Body := ReadCloser.raw resp.Body }, some e), tr) := by
  simp [__response, hce, hz]

theorem response_plain (gz : Reader → Except Error Closer) (resp : TransportResponse)
    (tr : Trace) (hce : resp.Header.Get "Content-Encoding" ≠ "gzip") :
    __response gz (some resp) none tr =
      some ((some { Header := resp.Header,
                    Body := ReadCloser.layered (gbkLayer resp.Header
                      { Reader := Reader.raw resp.Body, closer := [resp.Body] }) }, none),
        tr) := by
  simp [__response, hce]

theorem response_trace_extends (gz : Reader → Except Error Closer)
    (resp : Option TransportResponse) (err : Option Error) (tr : Trace) :
    __response gz resp err tr = none ∨
      ∃ res rest, __response gz resp err tr = some (res, tr ++ rest) := by
  unfold __response
  cases err with
  | some e => exact Or.inr ⟨_, [], by rw [List.append_nil]⟩
  | none =>
    cases resp with
    | none => exact Or.inl rfl
    | some resp =>
      simp only []
      split
      · split
        · exact Or.inr ⟨_, [], by rw [List.append_nil]⟩
        · exact Or.inr ⟨_, _, rfl⟩
      · exact Or.inr ⟨_, [], by rw [List.append_nil]⟩

theorem send_trace (f : HTTPFactory) (rt : Runtime) (req : HttpRequest) (tr : Trace) :
    f.send rt req tr = none ∨
      ∃ res rest, f.send rt req tr = some (res, tr ++ Event.sent req :: rest) := by
  unfold HTTPFactory.send
  rcases response_trace_extends rt.gzipNewReader (f.client req).1 (f.client req).2
      (tr ++ [Event.sent req]) with h | ⟨res, rest, h⟩
  · exact Or.inl h
  · exact Or.inr ⟨res, rest, by simpa [List.append_assoc] using h⟩

/-! ## Lemmas on the request helpers -/

theorem foldlM_none_of_mem {σ ι : Type} (f : σ → ι → Option σ) (i : ι)
    (hi : ∀ s, f s i = none) :
    ∀ (is : List ι) (s : σ), i ∈ is → is.foldlM f s = none := by
  intro is
  induction is with
  | nil => intro s h; simp at h
  | cons a rest ih =>
    intro s h
    rw [List.foldlM_cons]
    cases hfa : f s a with
    | none => rfl
    | some s' =>
      have hne : i ≠ a := by
        intro heq
        rw [← heq, hi s] at hfa
        exact Option.noConfusion hfa
      have hmem : i ∈ rest := by
        rcases List.mem_cons.mp h with h1 | h1
        · exact absurd h1 hne
        · exact h1
      simpa using ih s' hmem

theorem mem_loopIndices (l i : Nat) : i ∈ loopIndices l ↔ i < l ∧ i % 2 = 0 := by
  simp [loopIndices]

theorem setHeaders_nil (h : GoHeader) : setHeaders [] h = some h := by
  simp [setHeaders, loopIndices]

theorem setHeaders_pair (k v : String) (h : GoHeader) :
    setHeaders [k, v] h = some (h.Set k v) := by
  have h2 : loopIndices 2 = [0] := by decide
  simp [setHeaders, h2, setHeaderPair]

theorem setHeaders_panics (header : List String) (h : GoHeader)
    (h0 : header.length ≠ 0) (h2 : header.length ≠ 2) : setHeaders header h = none := by
  have key : ∃ i, i ∈ loopIndices header.length ∧ header.length ≤ i * 2 + 1 := by
    by_cases hodd : header.length % 2 = 1
    · refine ⟨header.length - 1, (mem_loopIndices _ _).mpr ⟨by omega, by omega⟩, by omega⟩
    · refine ⟨header.length - 2, (mem_loopIndices _ _).mpr ⟨by omega, by omega⟩, by omega⟩
  obtain ⟨i, hi, hlen⟩ := key
  refine foldlM_none_of_mem (setHeaderPair header) i ?_ _ h hi
  intro s
  have hnone : header.get? (i * 2 + 1) = none := List.get?_eq_none.mpr hlen
  unfold setHeaderPair
  rw [hnone]
  split
  · next h1 h3 => exact Option.noConfusion h3
  · rfl

theorem do_eq_send (f : HTTPFactory) (rt : Runtime) (method rawurl : String)
    (body : Option Stream) (header : List String) (tr : Trace) (req : HttpRequest)
    (h : GoHeader) (hreq : NewRequest rt.urlParse method rawurl body = .ok req)
    (hh : setHeaders header req.Header = some h) :
    f.__do rt method rawurl body header tr = f.send rt { req with Header := h } tr := by
  simp [HTTPFactory.__do, hreq, hh]

theorem NewRequest_post (parse : String → Except Error URL) (rawurl : String)
    (body : Option Stream) :
    NewRequest parse "POST" rawurl body =
      match parse rawurl with
      | .error e => .error e
      | .ok u => .ok { Method := "POST", URL := u, Header := [], Body := body } := by
  have h1 : ("POST" = "") = False := by decide
  have h2 : "POST".toList.all isTokenByte = true := by decide
  simp only [NewRequest, h1, if_false, h2, Bool.not_true]
  rfl

theorem Post_eq (f : HTTPFactory) (rt : Runtime) (rawurl contentType : String)
    (body : Option Stream) (tr : Trace) :
    f.Post rt rawurl contentType body tr =
      match rt.urlParse rawurl with
      | .error e => some ((none, some e), tr)
      | .ok u =>
        f.send rt { Method := "POST", URL := u, Header := [("Content-Type", [contentType])],
                    Body := body } tr := by
  have hc : CanonicalHeaderKey "Content-Type" = "Content-Type" := by decide
  unfold HTTPFactory.Post HTTPFactory.__do
  rw [NewRequest_post]
  cases hp : rt.urlParse rawurl with
  | error e => rfl
  | ok u =>
    simp only [setHeaders_pair]
    simp [GoHeader.Set, mapSet, hc]

theorem contentTypeOf_eq (dflt : String) (args : List String) :
    contentTypeOf dflt args = args.headD dflt := by
  cases args <;> rfl

/-! ## Lemmas on the query string of `Do` -/

theorem mapSet_fresh {β : Type} (m : List (String × β)) (k : String) (v : β)
    (hk : k ∉ m.map Prod.fst) : mapSet m k v = m ++ [(k, v)] := by
  induction m with
  | nil => rfl
  | cons a rest ih =>
    obtain ⟨k', v'⟩ := a
    have hne : ¬ k' = k := by
      intro heq
      exact hk (by simp [heq])
    have hrest : k ∉ rest.map Prod.fst := by
      intro hmem
      exact hk (by simp [List.mem_map] at hmem ⊢; exact Or.inr hmem)
    simp [mapSet, hne, ih hrest]

theorem queryValues_foldl (q : List (String × String)) :
    ∀ acc : Values, ((acc.map Prod.fst) ++ (q.map Prod.fst)).Nodup →
      q.foldl (fun a kv => mapSet a kv.1 [kv.2]) acc =
        acc ++ q.map (fun kv => (kv.1, [kv.2])) := by
  induction q with
  | nil => intro acc _; simp
  | cons kv rest ih =>
    intro acc hnd
    have hfresh : kv.1 ∉ acc.map Prod.fst := by
      intro hmem
      have := List.disjoint_of_nodup_append hnd hmem
      exact this (by simp)
    rw [List.foldl_cons, mapSet_fresh acc kv.1 [kv.2] hfresh]
    rw [ih]
    · simp
    · have hperm : (List.map Prod.fst (acc ++ [(kv.1, [kv.2])]) ++ List.map Prod.fst rest).Perm
          (List.map Prod.fst acc ++ List.map Prod.fst (kv :: rest)) := by
        simp
      exact (List.Perm.nodup_iff hperm).mpr hnd

theorem queryValues_eq (q : List (String × String)) (hnd : (q.map Prod.fst).Nodup) :
    queryValues q = q.map (fun kv => (kv.1, [kv.2])) := by
  have := queryValues_foldl q [] (by simpa using hnd)
  simpa [queryValues] using this

theorem mapGet_map_single (q : List (String × String)) (k : String) :
    mapGet (q.map (fun kv => (kv.1, [kv.2]))) k = (mapGet q k).map (fun v => [v]) := by
  induction q with
  | nil => rfl
  | cons a rest ih =>
    by_cases h : a.1 = k <;> simp [mapGet, h, ih]

theorem mapGet_of_mem {β : Type} (q : List (String × β)) (hnd : (q.map Prod.fst).Nodup)
    (kv : String × β) (hmem : kv ∈ q) : mapGet q kv.1 = some kv.2 := by
  induction q with
  | nil => simp at hmem
  | cons a rest ih =>
    have hnd' : a.1 ∉ rest.map Prod.fst ∧ (rest.map Prod.fst).Nodup := by
      simpa using hnd
    rcases List.mem_cons.mp hmem with h | h
    · subst h
      simp [mapGet]
    · have hne : ¬ a.1 = kv.1 := by
        intro heq
        exact hnd'.1 (by rw [heq]; exact List.mem_map_of_mem Prod.fst h)
      simp [mapGet, hne, ih hnd'.2 h]

theorem mapGet_of_mem_keys {β : Type} (q : List (String × β)) (k : String)
    (hk : k ∈ q.map Prod.fst) : ∃ v, mapGet q k = some v := by
  induction q with
  | nil => simp at hk
  | cons a rest ih =>
    by_cases h : a.1 = k
    · exact ⟨a.2, by simp [mapGet, h]⟩
    · have hrest : k ∈ rest.map Prod.fst := by
        rw [List.map_cons] at hk
        rcases List.mem_cons.mp hk with h1 | h1
        · exact absurd h1.symm h
        · exact h1
      obtain ⟨v, hv⟩ := ih hrest
      exact ⟨v, by simp [mapGet, h, hv]⟩

theorem encodeKeys_step (q : List (String × String)) (k : String) (ks : List String)
    (buf : String) (hk : k ∈ q.map Prod.fst) :
    Values.encodeKeys (q.map (fun kv => (kv.1, [kv.2]))) (k :: ks) buf =
      Values.encodeKeys (q.map (fun kv => (kv.1, [kv.2]))) ks
        ((if buf.length > 0 then buf ++ "&" else buf) ++
          (QueryEscape k ++ "=" ++ QueryEscape ((mapGet q k).getD ""))) := by
  obtain ⟨v, hv⟩ := mapGet_of_mem_keys q k hk
  simp [Values.encodeKeys, Values.encodeKey, mapGet_map_single, hv, String.append_assoc]

theorem encodeKeys_single (q : List (String × String)) (keys : List String) :
    ∀ buf : String, 0 < buf.length →
      (∀ k ∈ keys, k ∈ q.map Prod.fst) →
      Values.encodeKeys (q.map (fun kv => (kv.1, [kv.2]))) keys buf =
        String.intercalate.go buf "&"
          (keys.map (fun k => QueryEscape k ++ "=" ++ QueryEscape ((mapGet q k).getD ""))) := by
  induction keys with
  | nil => intro buf _ _; rfl
  | cons k ks ih =>
    intro buf hbuf hkeys
    rw [encodeKeys_step q k ks buf (hkeys k (by simp))]
    have hpos : (buf.length > 0) = True := eq_true hbuf
    simp only [hpos, if_true]
    rw [ih _ (by simp [String.length_append]; omega) (fun k' hk' => hkeys k' (by simp [hk']))]
    simp [String.intercalate.go, String.append_assoc]

theorem encodeKeys_empty (q : List (String × String)) (keys : List String)
    (hkeys : ∀ k ∈ keys, k ∈ q.map Prod.fst) :
    Values.encodeKeys (q.map (fun kv => (kv.1, [kv.2]))) keys "" =
      String.intercalate "&"
        (keys.map (fun k => QueryEscape k ++ "=" ++ QueryEscape ((mapGet q k).getD ""))) := by
  cases keys with
  | nil => rfl
  | cons k ks =>
    rw [encodeKeys_step q k ks "" (hkeys k (by simp))]
    have hzero : ("".length > 0) = False := by decide
    simp only [hzero, if_false, String.empty_append]
    have hlen : 0 < (QueryEscape k ++ "=" ++ QueryEscape ((mapGet q k).getD "")).length := by
      have h1 : "=".length = 1 := by decide
      simp only [String.length_append, h1]
      omega
    rw [encodeKeys_single q ks _ hlen (fun k' hk' => hkeys k' (by simp [hk']))]
    rfl

theorem AddCookie_URL (req : HttpRequest) (s : String) : (req.AddCookie s).URL = req.URL := by
  unfold HttpRequest.AddCookie
  simp only []
  split <;> rfl

theorem foldl_AddCookie_URL (g : String × String → String) (cs : List (String × String)) :
    ∀ req : HttpRequest, (cs.foldl (fun q kv => q.AddCookie (g kv)) req).URL = req.URL := by
  induction cs with
  | nil => intro req; rfl
  | cons c rest ih => intro req; rw [List.foldl_cons, ih, AddCookie_URL]

theorem buildRequest_RawQuery (rt : Runtime) (r : Request) (req : HttpRequest) :
    (HTTPFactory.buildRequest rt r req).URL.RawQuery =
      if r.Query.length > 0 then (queryValues r.Query).Encode else req.URL.RawQuery := by
  unfold HTTPFactory.buildRequest
  simp only []
  split <;> split <;> split <;> simp [foldl_AddCookie_URL]

theorem leBytes_total : ∀ a b : List Nat, leBytes a b = true ∨ leBytes b a = true := by
  intro a
  induction a with
  | nil => intro b; left; rfl
  | cons x xs ih =>
    intro b
    cases b with
    | nil => right; rfl
    | cons y ys =>
      rcases Nat.lt_trichotomy x y with h | h | h
      · left; simp [leBytes, h]
      · subst h
        rcases ih ys with h1 | h1
        · left; simp [leBytes, h1]
        · right; simp [leBytes, h1]
      · right; simp [leBytes, h]

theorem leBytes_trans : ∀ a b c : List Nat,
    leBytes a b = true → leBytes b c = true → leBytes a c = true := by
  intro a
  induction a with
  | nil => intro b c _ _; rfl
  | cons x xs ih =>
    intro b c hab hbc
    cases b with
    | nil => simp [leBytes] at hab
    | cons y ys =>
      cases c with
      | nil => simp [leBytes] at hbc
      | cons z zs =>
        simp only [leBytes, Bool.or_eq_true, Bool.and_eq_true, decide_eq_true_eq,
          beq_iff_eq] at hab hbc ⊢
        rcases hab with h1 | ⟨h1, h2⟩
        · rcases hbc with h3 | ⟨h3, _⟩
          · left; omega
          · left; omega
        · rcases hbc with h3 | ⟨h3, h4⟩
          · left; omega
          · right; exact ⟨by omega, ih ys zs h2 h4⟩

theorem sorted_insertionSort_leStr (l : List String) :
    (l.insertionSort (fun a b => leStr a b = true)).Sorted (fun a b => leStr a b = true) := by
  haveI : IsTotal String (fun a b => leStr a b = true) :=
    ⟨fun a b => leBytes_total _ _⟩
  haveI : IsTrans String (fun a b => leStr a b = true) :=
    ⟨fun a b c => leBytes_trans _ _ _⟩
  exact List.sorted_insertionSort _ l

theorem Encode_queryValues (q : List (String × String)) (hnd : (q.map Prod.fst).Nodup) :
    ∃ pairs : List (String × String),
      pairs.Perm q ∧
      (pairs.map Prod.fst).Sorted (fun a b => leStr a b = true) ∧
      (queryValues q).Encode =
        String.intercalate "&"
          (pairs.map (fun kv => QueryEscape kv.1 ++ "=" ++ QueryEscape kv.2)) := by
  let keys := (q.map Prod.fst).insertionSort (fun a b => leStr a b = true)
  have hperm : keys.Perm (q.map Prod.fst) := List.perm_insertionSort _ _
  have hmem : ∀ k ∈ keys, k ∈ q.map Prod.fst := fun k hk => hperm.subset hk
  refine ⟨keys.map (fun k => (k, (mapGet q k).getD "")), ?_, ?_, ?_⟩
  · have h1 : (keys.map (fun k => (k, (mapGet q k).getD ""))).Perm
        ((q.map Prod.fst).map (fun k => (k, (mapGet q k).getD ""))) := hperm.map _
    have h2 : (q.map Prod.fst).map (fun k => (k, (mapGet q k).getD "")) = q := by
      rw [List.map_map]
      conv_rhs => rw [← List.map_id q]
      apply List.map_congr_left
      intro kv hkv
      simp [mapGet_of_mem q hnd kv hkv]
    rw [h2] at h1
    exact h1
  · rw [List.map_map]
    have h3 : (Prod.fst ∘ fun k => (k, (mapGet q k).getD "")) = id := rfl
    rw [h3, List.map_id]
    exact sorted_insertionSort_leStr _
  · rw [queryValues_eq q hnd]
    unfold Values.Encode
    have hkeys : List.map Prod.fst (q.map (fun kv => (kv.1, [kv.2]))) = q.map Prod.fst := by
      simp [List.map_map, Function.comp_def]
    simp only [hkeys]
    rw [encodeKeys_empty q _ hmem, List.map_map]
    rfl

/-! ## The release of a response body -/

/-- C1: for a body whose closer list is the transport body `c0` seeded by `__response`
followed by the handles `cs` added by `Body.Append` in that order, one call of
`Body.Close` returns without panic and calls `Close` on the handles of `cs` from the last
to the first and then on `c0`: these calls, in this order, and no other. -/
theorem Body.Close_reverse_registration (r : LuaVM.Reader) (c0 : Closer) (cs : List Closer)
    (tr : Trace) :
    (cs.foldl Body.Append { Reader := r, closer := [c0] }).Close tr =
      some (none, tr ++ closedEvents cs.reverse ++ [Event.closed c0.id]) := by
  rw [Body.Close_eq, Body.closer_foldl_Append]
  simp [closedEvents, List.append_assoc]

/-- C2: for every closer list, each closer reporting whatever error it does, `Body.Close`
does not panic, returns no error and calls `Close` on every closer of the list, the
outcome being the one of the same list with no closer failing; and when the handle with
identity `n` fails with `e`, the handles `pre` registered before it are still all closed
after it, the handles `post` registered after it having been closed before it. -/
theorem Body.Close_contains_failures (r : LuaVM.Reader) (closers pre post : List Closer)
    (n : Nat) (e : Error) (tr : Trace) :
    ({ Reader := r, closer := closers } : Body).Close tr =
      some (none, tr ++ closedEvents closers.reverse) ∧
    ({ Reader := r, closer := closers } : Body).Close tr =
      ({ Reader := r, closer := closers.map (fun c => { c with err := none }) } : Body).Close
        tr ∧
    ({ Reader := r, closer := pre ++ { id := n, err := some e } :: post } : Body).Close tr =
      some (none,
        tr ++ closedEvents post.reverse ++ Event.closed n :: closedEvents pre.reverse) := by
  refine ⟨Body.Close_eq _ tr, ?_, ?_⟩
  · rw [Body.Close_eq, Body.Close_eq]
    simp [closedEvents, List.map_reverse, Function.comp_def]
  · rw [Body.Close_eq]
    simp [closedEvents, List.append_assoc]

/-! ## The response pipeline -/

/-- C3 (the code at the inputs of the claim): for a response declaring gzip whose
decompressor initialises, `__response` returns with the decompressor's `Close` already
recorded in the trace (the deferred call), and releasing the returned body once records it
a second time before the transport body: two invocations instead of one. -/
theorem response_closes_decompressor_twice (gz : Reader → Except Error Closer)
    (resp : TransportResponse) (z : Closer) (tr : Trace)
    (hce : resp.Header.Get "Content-Encoding" = "gzip")
    (hz : gz (Reader.raw resp.Body) = .ok z) :
    ∃ body : Body,
      __response gz (some resp) none tr =
        some ((some { Header := resp.Header, Body := ReadCloser.layered body }, none),
          tr ++ [Event.closed z.id]) ∧
      (ReadCloser.layered body).Close (tr ++ [Event.closed z.id]) =
        some (none,
          tr ++ [Event.closed z.id, Event.closed z.id, Event.closed resp.Body.id]) := by
  refine ⟨_, response_gzip_ok gz resp z tr hce hz, ?_⟩
  simp [ReadCloser.Close, Body.Close_eq, gbkLayer_closer, closedEvents]

/-- C3, at the response `gzipResponse` with a decompressor that initialises. -/
theorem response_closes_decompressor_twice_witness :
    gzipResponse.Header.Get "Content-Encoding" = "gzip" ∧
    ∃ body : Body,
      __response (fun _ => .ok gzipCloser) (some gzipResponse) none [] =
        some ((some { Header := gzipResponse.Header, Body := ReadCloser.layered body }, none),
          [] ++ [Event.closed gzipCloser.id]) ∧
      (ReadCloser.layered body).Close ([] ++ [Event.closed gzipCloser.id]) =
        some (none,
          [] ++ [Event.closed gzipCloser.id, Event.closed gzipCloser.id,
            Event.closed gzipResponse.Body.id]) :=
  ⟨by decide,
    response_closes_decompressor_twice (fun _ => .ok gzipCloser) gzipResponse gzipCloser []
      (by decide) rfl⟩

/-- C6: for a transport response whose decompressor initialises when one is needed,
`__response` succeeds with a body whose reader is the transport body, wrapped in the
decompressor exactly when `Content-Encoding` is `gzip`, and that wrapped in the GBK
transcoder exactly when `Content-Type` contains `charset=GBK`; whose closer list is the
transport body followed by the decompressor when it was applied, nothing being added for
the transcoder; and whose `Close` releases the decompressor, when there is one, before
the transport body. -/
theorem response_layers (gz : Reader → Except Error Closer) (resp : TransportResponse)
    (z : Closer) (tr : Trace)
    (hz : resp.Header.Get "Content-Encoding" = "gzip" → gz (Reader.raw resp.Body) = .ok z) :
    ∃ (body : Body) (tr' : Trace),
      __response gz (some resp) none tr =
        some ((some { Header := resp.Header, Body := ReadCloser.layered body }, none), tr') ∧
      body.Reader =
        (if Contains (resp.Header.Get "Content-Type") "charset=GBK" = true then Reader.gbk
          else id)
          ((if resp.Header.Get "Content-Encoding" = "gzip" then Reader.gunzip z else id)
            (Reader.raw resp.Body)) ∧
      body.closer =
        resp.Body :: (if resp.Header.Get "Content-Encoding" = "gzip" then [z] else []) ∧
      body.Close tr' =
        some (none,
          tr' ++ (if resp.Header.Get "Content-Encoding" = "gzip" then [Event.closed z.id]
                  else []) ++ [Event.closed resp.Body.id]) := by
  by_cases hce : resp.Header.Get "Content-Encoding" = "gzip"
  · refine ⟨_, _, response_gzip_ok gz resp z tr hce (hz hce), ?_, ?_, ?_⟩
    · unfold gbkLayer
      split <;> simp_all
    · simp [gbkLayer_closer, hce]
    · simp [Body.Close_eq, gbkLayer_closer, closedEvents, hce]
  · refine ⟨_, _, response_plain gz resp tr hce, ?_, ?_, ?_⟩
    · unfold gbkLayer
      split <;> simp_all
    · simp [gbkLayer_closer, hce]
    · simp [Body.Close_eq, gbkLayer_closer, closedEvents, hce]

/-- C6, at the response `gzipGbkResponse` declaring both gzip and GBK. -/
theorem response_layers_witness :
    (gzipGbkResponse.Header.Get "Content-Encoding" = "gzip" →
      (fun _ => Except.ok gzipCloser : Reader → Except Error Closer)
        (Reader.raw gzipGbkResponse.Body) = .ok gzipCloser) ∧
    ∃ (body : Body) (tr' : Trace),
      __response (fun _ => .ok gzipCloser) (some gzipGbkResponse) none [] =
        some ((some { Header := gzipGbkResponse.Header, Body := ReadCloser.layered body },
          none), tr') ∧
      body.Reader =
        (if Contains (gzipGbkResponse.Header.Get "Content-Type") "charset=GBK" = true
          then Reader.gbk else id)
          ((if gzipGbkResponse.Header.Get "Content-Encoding" = "gzip"
            then Reader.gunzip gzipCloser else id)
            (Reader.raw gzipGbkResponse.Body)) ∧
      body.closer =
        gzipGbkResponse.Body ::
          (if gzipGbkResponse.Header.Get "Content-Encoding" = "gzip" then [gzipCloser]
            else []) ∧
      body.Close tr' =
        some (none,
          tr' ++ (if gzipGbkResponse.Header.Get "Content-Encoding" = "gzip"
                  then [Event.closed gzipCloser.id] else []) ++
            [Event.closed gzipGbkResponse.Body.id]) :=
  ⟨fun _ => rfl,
    response_layers (fun _ => .ok gzipCloser) gzipGbkResponse gzipCloser [] (fun _ => rfl)⟩

/-- C8: when the response declares gzip and the decompressor fails to initialise with
`e`, `__response` returns `e` together with the response, whose body is the transport
body itself; the trace is unchanged, so nothing was released; and releasing the returned
body calls `Close` on the transport body once and on nothing else. -/
theorem response_gzip_init_failure (gz : Reader → Except Error Closer)
    (resp : TransportResponse) (e : Error) (tr : Trace)
    (hce : resp.Header.Get "Content-Encoding" = "gzip")
    (hz : gz (Reader.raw resp.Body) = .error e) :
    __response gz (some resp) none tr =
      some ((some { Header := resp.Header, Body := ReadCloser.raw resp.Body }, some e), tr) ∧
    (ReadCloser.raw resp.Body).Close tr =
      some (resp.Body.err, tr ++ [Event.closed resp.Body.id]) := by
  refine ⟨response_gzip_error gz resp e tr hce hz, ?_⟩
  simp [ReadCloser.Close, Closer.Close]

/-- C8, at the response `gzipResponse` with a decompressor refusing the stream. -/
theorem response_gzip_init_failure_witness :
    gzipResponse.Header.Get "Content-Encoding" = "gzip" ∧
    __response (fun _ => .error "gzip: invalid header") (some gzipResponse) none [] =
      some ((some { Header := gzipResponse.Header, Body := ReadCloser.raw gzipResponse.Body },
        some "gzip: invalid header"), []) ∧
    (ReadCloser.raw gzipResponse.Body).Close [] =
      some (gzipResponse.Body.err, [] ++ [Event.closed gzipResponse.Body.id]) :=
  ⟨by decide,
    response_gzip_init_failure (fun _ => .error "gzip: invalid header") gzipResponse
      "gzip: invalid header" [] (by decide) rfl⟩

/-! ## The request helpers -/

/-- C7 (the claim fails for a URL that `http.NewRequest` refuses): on the URL
`://example.com/api`, which `url.Parse` refuses for its missing scheme, each of the four
helpers returns an error and no response, and its trace is empty: no request, hence no
`POST` and no `Content-Type`, was handed to the client. -/
theorem post_helpers_refused_url_sends_nothing :
    ((sampleFactory plainResponse).PostJson refusingRuntime emptyObjectMarshal
        "://example.com/api" () [] []).observed = some (false, true, []) ∧
    ((sampleFactory plainResponse).PostForm refusingRuntime "://example.com/api"
        [("a", ["1"])] [] []).observed = some (false, true, []) ∧
    ((sampleFactory plainResponse).PostString refusingRuntime "://example.com/api"
        "hello" [] []).observed = some (false, true, []) ∧
    ((sampleFactory plainResponse).PostBuffer refusingRuntime "://example.com/api"
        [1, 2, 3] [] []).observed = some (false, true, []) := by
  decide

/-- C7 as amended: for every URL the parser accepts and every payload, each of `PostJson`,
`PostForm`, `PostString` and `PostBuffer` calls the client on one request, recorded in the
trace right after the events that were there, whose method is `POST` and whose header map
is the single entry `Content-Type`, bound to the first extra argument when there is one
and to `application/json`, `application/x-www-form-urlencoded`, `text/plain` and
`application/octet-stream` respectively when there is none; the outcome is that of
`__response` on the answer of the client to this request.  For a URL the parser refuses
the error is returned and the trace is unchanged: nothing is sent. -/
theorem post_helpers_content_type {α : Type} (f : HTTPFactory) (rt : Runtime)
    (marshal : α → Except Error (List Nat)) (rawurl : String) (jsonValue : α)
    (form : Values) (text : String) (buffer : List Nat) (args : List String) (tr : Trace) :
    match rt.urlParse rawurl with
    | .error e =>
      f.PostJson rt marshal rawurl jsonValue args tr = some ((none, some e), tr) ∧
      f.PostForm rt rawurl form args tr = some ((none, some e), tr) ∧
      f.PostString rt rawurl text args tr = some ((none, some e), tr) ∧
      f.PostBuffer rt rawurl buffer args tr = some ((none, some e), tr)
    | .ok u =>
      (∃ req : HttpRequest,
        req.Method = "POST" ∧ req.URL = u ∧
        req.Header = [("Content-Type", [args.headD "application/json"])] ∧
        req.Body = some (pipeReader (jsonProducer (marshal jsonValue))) ∧
        f.PostJson rt marshal rawurl jsonValue args tr =
          __response rt.gzipNewReader (f.client req).1 (f.client req).2
            (tr ++ [Event.sent req]) ∧
        (f.PostJson rt marshal rawurl jsonValue args tr = none ∨
          ∃ res rest, f.PostJson rt marshal rawurl jsonValue args tr =
            some (res, tr ++ Event.sent req :: rest))) ∧
      (∃ req : HttpRequest,
        req.Method = "POST" ∧ req.URL = u ∧
        req.Header = [("Content-Type", [args.headD "application/x-www-form-urlencoded"])] ∧
        req.Body = some (bytesReader (strBytes form.Encode.toList)) ∧
        f.PostForm rt rawurl form args tr =
          __response rt.gzipNewReader (f.client req).1 (f.client req).2
            (tr ++ [Event.sent req]) ∧
        (f.PostForm rt rawurl form args tr = none ∨
          ∃ res rest, f.PostForm rt rawurl form args tr =
            some (res, tr ++ Event.sent req :: rest))) ∧
      (∃ req : HttpRequest,
        req.Method = "POST" ∧ req.URL = u ∧
        req.Header = [("Content-Type", [args.headD "text/plain"])] ∧
        req.Body = some (bytesReader (strBytes text.toList)) ∧
        f.PostString rt rawurl text args tr =
          __response rt.gzipNewReader (f.client req).1 (f.client req).2
            (tr ++ [Event.sent req]) ∧
        (f.PostString rt rawurl text args tr = none ∨
          ∃ res rest, f.PostString rt rawurl text args tr =
            some (res, tr ++ Event.sent req :: rest))) ∧
      (∃ req : HttpRequest,
        req.Method = "POST" ∧ req.URL = u ∧
        req.Header = [("Content-Type", [args.headD "application/octet-stream"])] ∧
        req.Body = some (bytesReader buffer) ∧
        f.PostBuffer rt rawurl buffer args tr =
          __response rt.gzipNewReader (f.client req).1 (f.client req).2
            (tr ++ [Event.sent req]) ∧
        (f.PostBuffer rt rawurl buffer args tr = none ∨
          ∃ res rest, f.PostBuffer rt rawurl buffer args tr =
            some (res, tr ++ Event.sent req :: rest))) := by
  unfold HTTPFactory.PostJson HTTPFactory.PostForm HTTPFactory.PostString
    HTTPFactory.PostBuffer
  simp only [Post_eq, contentTypeOf_eq]
  cases hp : rt.urlParse rawurl with
  | error e => exact ⟨rfl, rfl, rfl, rfl⟩
  | ok u =>
    exact ⟨⟨_, rfl, rfl, rfl, rfl, rfl, send_trace f rt _ tr⟩,
      ⟨_, rfl, rfl, rfl, rfl, rfl, send_trace f rt _ tr⟩,
      ⟨_, rfl, rfl, rfl, rfl, rfl, send_trace f rt _ tr⟩,
      ⟨_, rfl, rfl, rfl, rfl, rfl, send_trace f rt _ tr⟩⟩

/-- C5 (the claim fails): with a value whose JSON encoding fails, the producer of
`PostJson` writes nothing and closes the pipe without error, so the body of the request
handed to the client reads as zero bytes followed by a clean end of stream. -/
theorem PostJson_failed_encoding_reads_eof :
    pipeReader (jsonProducer (failingMarshal ())) = { data := [], ending := StreamEnd.eof } ∧
    (sampleFactory plainResponse).PostJson (sampleRuntime (.ok gzipCloser) (.ok []))
        failingMarshal "http://example.com/api" () [] [] =
      (sampleFactory plainResponse).send (sampleRuntime (.ok gzipCloser) (.ok []))
        { Method := "POST",
          URL := { Base := "http://example.com/api", RawQuery := "", Fragment := "" },
          Header := [("Content-Type", ["application/json"])],
          Body := some { data := [], ending := StreamEnd.eof } } [] := by
  decide

/-- C5 as amended: the error of the encoder never reaches the pipe.  The request body of
`PostJson` always ends in a clean end of stream: after zero bytes when the encoding of
the value fails, after the encoding and a newline when it succeeds. -/
theorem PostJson_body_always_clean {α : Type} (f : HTTPFactory) (rt : Runtime)
    (marshal : α → Except Error (List Nat)) (rawurl : String) (values : α)
    (args : List String) (tr : Trace) :
    f.PostJson rt marshal rawurl values args tr =
      f.Post rt rawurl (args.headD "application/json")
        (some { data := (match marshal values with
                          | .error _ => []
                          | .ok b => b ++ [10]),
                ending := StreamEnd.eof }) tr := by
  unfold HTTPFactory.PostJson
  rw [contentTypeOf_eq]
  cases marshal values <;> simp [jsonProducer, jsonEncode, pipeReader]

/-- C9 (the code at the failing path): when the transport answers a `GET` with a
response declaring gzip and the decompressor fails to initialise, `GetBuffer` returns the
error with a trace that ends at the sending of the request: `Close` was called on no
handle, the transport body included. -/
theorem GetBuffer_gzip_failure_leaves_body_open (f : HTTPFactory) (rt : Runtime)
    (rawurl : String) (tr : Trace) (req : HttpRequest) (resp : TransportResponse)
    (e : Error)
    (hreq : NewRequest rt.urlParse "GET" rawurl none = .ok req)
    (hdo : f.client req = (some resp, none))
    (hce : resp.Header.Get "Content-Encoding" = "gzip")
    (hz : rt.gzipNewReader (Reader.raw resp.Body) = .error e) :
    f.GetBuffer rt rawurl tr = some ((none, some e), tr ++ [Event.sent req]) := by
  have hget : f.Get rt rawurl tr =
      some ((some { Header := resp.Header, Body := ReadCloser.raw resp.Body }, some e),
        tr ++ [Event.sent req]) := by
    unfold HTTPFactory.Get
    rw [do_eq_send f rt "GET" rawurl none [] tr req req.Header hreq (setHeaders_nil _)]
    unfold HTTPFactory.send
    simp only [hdo]
    exact response_gzip_error rt.gzipNewReader resp e _ hce hz
  simp [HTTPFactory.GetBuffer, hget]

/-- C9, at `gzipResponse` with a decompressor refusing the stream: the trace of
`GetBuffer` holds the request and no `Close`. -/
theorem GetBuffer_gzip_failure_leaves_body_open_witness :
    gzipResponse.Header.Get "Content-Encoding" = "gzip" ∧
    (sampleFactory gzipResponse).GetBuffer
        (sampleRuntime (.error "gzip: invalid header") (.ok [])) "http://example.com/" [] =
      some ((none, some "gzip: invalid header"),
        [] ++ [Event.sent { Method := "GET",
                            URL := { Base := "http://example.com/", RawQuery := "",
                                     Fragment := "" },
                            Header := [], Body := none }]) :=
  ⟨by decide,
    GetBuffer_gzip_failure_leaves_body_open (sampleFactory gzipResponse)
      (sampleRuntime (.error "gzip: invalid header") (.ok [])) "http://example.com/" []
      _ gzipResponse "gzip: invalid header" rfl rfl (by decide) rfl⟩

/-- C10 (the code on every header list): the header loop of `__do` ends in an
index-out-of-range panic for every argument list whose length is neither 0 nor 2; the
lists of four and more entries, of even length included, never have their pairs set. -/
theorem setHeaders_panics_iff (header : List String) (h : GoHeader) :
    setHeaders header h = none ↔ header.length ≠ 0 ∧ header.length ≠ 2 := by
  constructor
  · intro hnone
    refine ⟨?_, ?_⟩
    · intro h0
      have hnil : header = [] := List.length_eq_zero.mp h0
      rw [hnil, setHeaders_nil] at hnone
      exact Option.noConfusion hnone
    · intro h2
      obtain ⟨k, v, hkv⟩ := List.length_eq_two.mp h2
      rw [hkv, setHeaders_pair] at hnone
      exact Option.noConfusion hnone
  · intro hlen
    exact setHeaders_panics header h hlen.1 hlen.2

/-- C4 (the claim fails): `Do` on a request whose URL carries the query `lang=en` and whose
`Query` map holds `q`, hands the client a request whose query string is `q=lua+vm`: the
parameter `lang=en` of the URL is gone. -/
theorem Do_query_replaces_url_query :
    (splitURL searchRequest.Url).RawQuery = "lang=en" ∧
    (sampleFactory plainResponse).Do (sampleRuntime (.ok gzipCloser) (.ok []))
        searchRequest [] =
      (sampleFactory plainResponse).send (sampleRuntime (.ok gzipCloser) (.ok []))
        { Method := "GET",
          URL := { Base := "http://example.com/search", RawQuery := "q=lua+vm",
                   Fragment := "" },
          Header := [], Body := none } [] ∧
    Contains "q=lua+vm" "lang=en" = false := by
  decide

/-- C4 as amended: when `http.NewRequest` accepts the request and the keys of `r.Query`
are those of a map, `Do` sends the request built from it, and the query string of that
request is the one of the URL, unchanged, when `r.Query` is empty; when `r.Query` is not
empty it is made of the entries of `r.Query` alone, one `key=value` per entry with key
and value escaped, in the order of the sorted keys and joined by `&`, in place of
whatever query the URL had. -/
theorem Do_query_string (f : HTTPFactory) (rt : Runtime) (r : Request) (tr : Trace)
    (req : HttpRequest)
    (hreq : NewRequest rt.urlParse r.Method r.Url r.Body = .ok req)
    (hmap : (r.Query.map Prod.fst).Nodup) :
    f.Do rt r tr = f.send rt (HTTPFactory.buildRequest rt r req) tr ∧
    (r.Query = [] → (HTTPFactory.buildRequest rt r req).URL.RawQuery = req.URL.RawQuery) ∧
    (r.Query ≠ [] →
      ∃ pairs : List (String × String),
        pairs.Perm r.Query ∧
        (pairs.map Prod.fst).Sorted (fun a b => leStr a b = true) ∧
        (HTTPFactory.buildRequest rt r req).URL.RawQuery =
          String.intercalate "&"
            (pairs.map (fun kv => QueryEscape kv.1 ++ "=" ++ QueryEscape kv.2))) := by
  refine ⟨by simp [HTTPFactory.Do, hreq], ?_, ?_⟩
  · intro hq
    rw [buildRequest_RawQuery, hq]
    rfl
  · intro hq
    have hpos : r.Query.length > 0 := List.length_pos.mpr hq
    rw [buildRequest_RawQuery, if_pos hpos]
    exact Encode_queryValues r.Query hmap

/-- C4 as amended, at `searchRequest`. -/
theorem Do_query_string_witness :
    NewRequest (sampleRuntime (.ok gzipCloser) (.ok [])).urlParse searchRequest.Method
        searchRequest.Url searchRequest.Body = .ok searchHttpRequest ∧
    (searchRequest.Query.map Prod.fst).Nodup ∧
    ((sampleFactory plainResponse).Do (sampleRuntime (.ok gzipCloser) (.ok []))
        searchRequest [] =
      (sampleFactory plainResponse).send (sampleRuntime (.ok gzipCloser) (.ok []))
        (HTTPFactory.buildRequest (sampleRuntime (.ok gzipCloser) (.ok [])) searchRequest
          searchHttpRequest) [] ∧
    (searchRequest.Query = [] →
      (HTTPFactory.buildRequest (sampleRuntime (.ok gzipCloser) (.ok [])) searchRequest
        searchHttpRequest).URL.RawQuery = searchHttpRequest.URL.RawQuery) ∧
    (searchRequest.Query ≠ [] →
      ∃ pairs : List (String × String),
        pairs.Perm searchRequest.Query ∧
        (pairs.map Prod.fst).Sorted (fun a b => leStr a b = true) ∧
        (HTTPFactory.buildRequest (sampleRuntime (.ok gzipCloser) (.ok [])) searchRequest
          searchHttpRequest).URL.RawQuery =
          String.intercalate "&"
            (pairs.map (fun kv => QueryEscape kv.1 ++ "=" ++ QueryEscape kv.2)))) :=
  ⟨rfl, by decide,
    Do_query_string (sampleFactory plainResponse) (sampleRuntime (.ok gzipCloser) (.ok []))
      searchRequest [] searchHttpRequest rfl (by decide)⟩

end LuaVM
